import Mathlib

/-!
Verification of dynamic-price-nft-mint: the exported toolchain configuration.

The repository holds two CommonJS modules, `hardhat.config.js` and
`scripts/deploy.js`.  Each one calls `require` on toolchain plugins for their
side effects and then assigns one object literal to `module.exports`.  There is
no function, branch or loop in either file, so the embedding is the value
language of the literals (strings, arrays, objects), the two modules, and the
evaluation of a module: its `require` statements run first and may throw, then
the literal becomes the exported value.
-/

namespace DynamicPriceNftMint

/-! ## Values -/

/-- JavaScript values occurring in the two files: string literals, array
literals and object literals.  An object keeps its properties in source order. -/
inductive JsValue where
  | str : String → JsValue
  | arr : List JsValue → JsValue
  | obj : List (String × JsValue) → JsValue

namespace JsValue

/-- Property read `v[k]`; `none` stands for `undefined`. -/
def get? : JsValue → String → Option JsValue
  | obj fs, k => fs.lookup k
  | _, _ => none

/-- Own property names of an object, in source order. -/
def keys : JsValue → List String
  | obj fs => fs.map Prod.fst
  | _ => []

/-- The string carried by a string value. -/
def asString? : JsValue → Option String
  | str s => some s
  | _ => none

/-- The strings carried by an array whose elements are all strings. -/
def asStrings? : JsValue → Option (List String)
  | arr xs => xs.mapM asString?
  | _ => none

end JsValue

/-! ## Modules -/

/-- A CommonJS module of the shape used by both files: a run of
`require("...")` statements whose results are discarded, followed by
`module.exports = <literal>;`. -/
structure JsModule where
  requires : List String
  exports : JsValue

/-- Translation of `hardhat.config.js`. -/
def hardhat_config_js : JsModule where
  requires := ["@nomiclabs/hardhat-waffle", "@nomiclabs/hardhat-ethers"]
  exports :=
    .obj [
      ("solidity", .str "0.8.25"),
      ("networks", .obj [
        ("rinkeby", .obj [
          ("url", .str "https://rinkeby.infura.io/v3/YOUR_INFURA_PROJECT_ID"),
          ("accounts", .arr [.str "YOUR_PRIVATE_KEY"])
        ])
      ])
    ]

/-- Translation of `scripts/deploy.js`. -/
def deploy_js : JsModule where
  requires := ["@nomiclabs/hardhat-waffle"]
  exports :=
    .obj [
      ("solidity", .str "0.8.25"),
      ("networks", .obj [
        ("rinkeby", .obj [
          ("url", .str "https://rinkeby.infura.io/v3/YOUR_INFURA_PROJECT_ID"),
          ("accounts", .arr [.str "YOUR_PRIVATE_KEY"])
        ])
      ])
    ]

/-- The process environment, `process.env`: variable name to value. -/
abbrev Env := String → Option String

/-- The package installation a module runs against: whether `require(name)`
resolves to a module. -/
abbrev Packages := String → Bool

/-- Ways a load can fail.  `configurationError` is the error the specification
names for a rejected configuration; neither file contains a `throw` or a check,
so no evaluation below produces it.  `moduleNotFound` is what `require` throws
for a name that does not resolve. -/
inductive LoadError where
  | configurationError : LoadError
  | moduleNotFound : String → LoadError
  deriving DecidableEq, Repr

/-- Running the `require` statements of a module in source order.  The first
name that does not resolve throws, and nothing after it runs. -/
def runRequires (pk : Packages) : List String → Except LoadError Unit
  | [] => .ok ()
  | name :: rest =>
    if pk name then runRequires pk rest else .error (.moduleNotFound name)

/-- Loading a module against an installation and a process environment: the
`require` statements run in order, then `module.exports = <literal>` stores
its right-hand side as written, with no check in between.  The results of the
`require` calls are discarded and neither file reads `process.env`. -/
def loadWith (pk : Packages) (_env : Env) (m : JsModule) : Except LoadError JsValue :=
  match runRequires pk m.requires with
  | .ok _ => .ok m.exports
  | .error e => .error e

/-- An installation in which every package resolves. -/
def allPackages : Packages := fun _ => true

/-- An installation in which no package resolves: a fresh checkout. -/
def noPackages : Packages := fun _ => false

/-- An installation holding `@nomiclabs/hardhat-waffle` and nothing else. -/
def waffleOnly : Packages := fun name => name == "@nomiclabs/hardhat-waffle"

/-- Loading inside a toolchain run, where every plugin is installed. -/
def load (env : Env) (m : JsModule) : Except LoadError JsValue :=
  loadWith allPackages env m

/-! ## Reading the record -/

/-- The `solidity` field as a string. -/
def solidityOf (cfg : JsValue) : Option String :=
  (cfg.get? "solidity").bind JsValue.asString?

/-- The properties of the `networks` object: network name and endpoint. -/
def networkEntries (cfg : JsValue) : List (String × JsValue) :=
  match cfg.get? "networks" with
  | some (.obj fs) => fs
  | _ => []

/-- The network names of a configuration. -/
def networkNames (cfg : JsValue) : List String :=
  (networkEntries cfg).map Prod.fst

/-- The endpoint filed under a network name, `networks[N]`. -/
def endpointOf (cfg : JsValue) (N : String) : Option JsValue :=
  (networkEntries cfg).lookup N

/-- The `url` field of an endpoint. -/
def urlOf (ep : JsValue) : Option String :=
  (ep.get? "url").bind JsValue.asString?

/-- The `accounts` field of an endpoint. -/
def accountsOf (ep : JsValue) : Option (List String) :=
  (ep.get? "accounts").bind JsValue.asStrings?

/-- What a load hands to the toolchain for signing and connecting: for each
network name, the `url` and the `accounts` of its endpoint.  A failed load
hands over nothing. -/
def credentialsOf (r : Except LoadError JsValue) :
    List (String × Option String × Option (List String)) :=
  match r with
  | .ok cfg => (networkEntries cfg).map fun e => (e.1, urlOf e.2, accountsOf e.2)
  | .error _ => []

/-! ## Text formats named by the properties -/

/-- Pieces of a character list between occurrences of a separator. -/
def splitOnChar (sep : Char) : List Char → List (List Char)
  | [] => [[]]
  | c :: cs =>
    if c = sep then [] :: splitOnChar sep cs
    else
      match splitOnChar sep cs with
      | [] => [[c]]
      | p :: ps => (c :: p) :: ps

/-- One hexadecimal digit, either case. -/
def isHexDigit (c : Char) : Bool :=
  c.isDigit || ('a' ≤ c && c ≤ 'f') || ('A' ≤ c && c ≤ 'F')

/-- Exactly 64 hexadecimal digits. -/
def isHex64 (cs : List Char) : Bool :=
  cs.length == 64 && cs.all isHexDigit

/-- Secret-key format: a 32-byte private key written as exactly 64 hexadecimal
digits, optionally preceded by `0x`. -/
def isSecretKey (s : String) : Bool :=
  isHex64 s.data ||
    match s.data with
    | '0' :: 'x' :: rest => isHex64 rest
    | _ => false

/-- The text after the scheme of an HTTP(S) URL, when the text starts with
`http://` or `https://`. -/
def afterScheme? (cs : List Char) : Option (List Char) :=
  if "https://".data.isPrefixOf cs then some (cs.drop 8)
  else if "http://".data.isPrefixOf cs then some (cs.drop 7)
  else none

/-- The host of a URL: the text between the scheme and the next `/`. -/
def hostOf? (url : String) : Option (List Char) :=
  (afterScheme? url.data).map fun rest => rest.takeWhile (· ≠ '/')

/-- Well-formed HTTP(S) URL text: an `http://` or `https://` scheme, then a
non-empty host made of dot-separated non-empty labels, and no whitespace
anywhere. -/
def validHttpUrl (url : String) : Bool :=
  match hostOf? url with
  | some host =>
    !host.isEmpty && (splitOnChar '.' host).all (fun l => !l.isEmpty) &&
      url.data.all (fun c => !c.isWhitespace)
  | none => false

/-- The project identifier of an endpoint URL: its last path segment. -/
def projectIdOf? (url : String) : Option String :=
  (afterScheme? url.data).bind fun rest =>
    match (splitOnChar '/' rest).reverse with
    | seg :: _ :: _ => some (String.mk seg)
    | _ => none

/-- Value of a non-empty run of decimal digits. -/
def decimalValue? (cs : List Char) : Option Nat :=
  if !cs.isEmpty && cs.all Char.isDigit then
    some (cs.foldl (fun n c => 10 * n + (c.toNat - '0'.toNat)) 0)
  else none

/-- A semantic version `MAJOR.MINOR.PATCH`: exactly three non-empty decimal
numerals separated by two dots and nothing else. -/
def parseSemver (s : String) : Option (Nat × Nat × Nat) :=
  match splitOnChar '.' s.data with
  | [a, b, c] =>
    match decimalValue? a, decimalValue? b, decimalValue? c with
    | some x, some y, some z => some (x, y, z)
    | _, _, _ => none
  | _ => none

/-- The required-field conditions the specification lists for a configuration:
`solidity` is present, and every network has a parseable `url` and a
non-empty `accounts` list. -/
def requiredFieldsOk (cfg : JsValue) : Bool :=
  (solidityOf cfg).isSome &&
    (networkEntries cfg).all fun e =>
      (match urlOf e.2 with
        | some u => validHttpUrl u
        | none => false) &&
      (match accountsOf e.2 with
        | some (_ :: _) => true
        | _ => false)

/-- An environment that supplies the given value under `PRIVATE_KEY` and under
`INFURA_PROJECT_ID`, and nothing else. -/
def envWithSecret (secret : String) : Env := fun name =>
  if name = "PRIVATE_KEY" ∨ name = "INFURA_PROJECT_ID" then some secret else none

/-- The value written under `networks.rinkeby` in both files. -/
def rinkebyEndpoint : JsValue :=
  .obj [
    ("url", .str "https://rinkeby.infura.io/v3/YOUR_INFURA_PROJECT_ID"),
    ("accounts", .arr [.str "YOUR_PRIVATE_KEY"])
  ]

/-- The configuration record written in both files: compiler version 0.8.25
and the one network `rinkeby`. -/
def configurationRecord : JsValue :=
  .obj [
    ("solidity", .str "0.8.25"),
    ("networks", .obj [("rinkeby", rinkebyEndpoint)])
  ]

/-- The two modules of the repository. -/
def sourceModules : List JsModule := [hardhat_config_js, deploy_js]

/-- Every `require` statement of the module resolves in the installation. -/
def requiresResolve (pk : Packages) (m : JsModule) : Prop :=
  ∀ name ∈ m.requires, pk name = true

/-! ## Shared facts about the two literals -/

/-- In both files the `networks` object has the single property `rinkeby`. -/
theorem networkEntries_source {m : JsModule} (hm : m ∈ sourceModules) :
    networkEntries m.exports = [("rinkeby", rinkebyEndpoint)] := by
  simp only [sourceModules, List.mem_cons, List.mem_singleton, List.not_mem_nil,
    or_false] at hm
  rcases hm with rfl | rfl <;> rfl

/-- A network entry of either file is the `rinkeby` entry. -/
theorem mem_networkEntries_source {m : JsModule} (hm : m ∈ sourceModules)
    {N : String} {ep : JsValue} (h : (N, ep) ∈ networkEntries m.exports) :
    N = "rinkeby" ∧ ep = rinkebyEndpoint := by
  rw [networkEntries_source hm] at h
  simpa using h

/-- The `rinkeby` entry is a network entry of `hardhat.config.js`. -/
theorem rinkeby_mem_hardhat :
    ("rinkeby", rinkebyEndpoint) ∈ networkEntries hardhat_config_js.exports := by
  rw [networkEntries_source (List.mem_cons_self _ _)]
  exact List.mem_singleton.mpr rfl

/-- The `rinkeby` entry is a network entry of `scripts/deploy.js`. -/
theorem rinkeby_mem_deploy :
    ("rinkeby", rinkebyEndpoint) ∈ networkEntries deploy_js.exports := by
  rw [networkEntries_source (List.mem_cons_of_mem _ (List.mem_singleton.mpr rfl))]
  exact List.mem_singleton.mpr rfl

/-- The two modules are not the same module: they differ in their `require`
statements. -/
theorem deploy_ne_hardhat : deploy_js ≠ hardhat_config_js := by
  intro h
  have hr : deploy_js.requires = hardhat_config_js.requires := congrArg JsModule.requires h
  exact absurd hr (by decide)

/-- Both files export the same record, the one written out in
`configurationRecord`. -/
theorem exports_source {m : JsModule} (hm : m ∈ sourceModules) :
    m.exports = configurationRecord := by
  simp only [sourceModules, List.mem_cons, List.mem_singleton, List.not_mem_nil,
    or_false] at hm
  rcases hm with rfl | rfl <;> rfl

/-- When every name resolves, the `require` statements all return. -/
theorem runRequires_of_all (pk : Packages) :
    ∀ names : List String, (∀ name ∈ names, pk name = true) →
      runRequires pk names = .ok ()
  | [], _ => rfl
  | name :: rest, h => by
    have hname : pk name = true := h name (List.mem_cons_self _ _)
    have hrest : ∀ n ∈ rest, pk n = true := fun n hn => h n (List.mem_cons_of_mem _ hn)
    simp only [runRequires, hname, if_true]
    exact runRequires_of_all pk rest hrest

/-- The `require` statements either all return, or stop at a name that does
not resolve with the module-not-found error for that name. -/
theorem runRequires_cases (pk : Packages) :
    ∀ names : List String,
      ((∀ name ∈ names, pk name = true) ∧ runRequires pk names = .ok ()) ∨
      ∃ missing ∈ names, pk missing = false ∧
        runRequires pk names = .error (.moduleNotFound missing)
  | [] => Or.inl ⟨fun _ h => absurd h (List.not_mem_nil _), rfl⟩
  | name :: rest => by
    cases hname : pk name with
    | false =>
      refine Or.inr ⟨name, List.mem_cons_self _ _, hname, ?_⟩
      simp [runRequires, hname]
    | true =>
      rcases runRequires_cases pk rest with ⟨hall, hok⟩ | ⟨missing, hmem, hpk, herr⟩
      · refine Or.inl ⟨?_, ?_⟩
        · intro n hn
          rcases List.mem_cons.mp hn with rfl | hn
          · exact hname
          · exact hall n hn
        · simp only [runRequires, hname, if_true]
          exact hok
      · refine Or.inr ⟨missing, List.mem_cons_of_mem _ hmem, hpk, ?_⟩
        simp only [runRequires, hname, if_true]
        exact herr

/-- A load whose `require` statements all resolve returns the literal. -/
theorem loadWith_of_resolve (pk : Packages) (env : Env) (m : JsModule)
    (h : requiresResolve pk m) : loadWith pk env m = .ok m.exports := by
  unfold loadWith
  rw [runRequires_of_all pk m.requires h]

/-- A load either returns the literal, all names resolving, or fails with the
module-not-found error of a name that does not resolve. -/
theorem loadWith_cases (pk : Packages) (env : Env) (m : JsModule) :
    (requiresResolve pk m ∧ loadWith pk env m = .ok m.exports) ∨
    ∃ missing ∈ m.requires, pk missing = false ∧
      loadWith pk env m = .error (.moduleNotFound missing) := by
  rcases runRequires_cases pk m.requires with ⟨hall, hok⟩ | ⟨missing, hmem, hpk, herr⟩
  · exact Or.inl ⟨hall, by unfold loadWith; rw [hok]⟩
  · exact Or.inr ⟨missing, hmem, hpk, by unfold loadWith; rw [herr]⟩

/-- Every name resolves in the installation `allPackages`. -/
theorem requiresResolve_allPackages (m : JsModule) : requiresResolve allPackages m :=
  fun _ _ => rfl

/-! ## The claims -/

/-- C1: the record exported by `scripts/deploy.js` equals the record exported
by `hardhat.config.js`, field by field: the same `solidity` string, the same
network names, and under every network name the same `url` and the same
`accounts` sequence in the same order. -/
theorem deploy_exports_eq_hardhat_exports :
    deploy_js.exports = hardhat_config_js.exports ∧
    solidityOf deploy_js.exports = solidityOf hardhat_config_js.exports ∧
    networkNames deploy_js.exports = networkNames hardhat_config_js.exports ∧
    ∀ N : String,
      (endpointOf deploy_js.exports N).bind urlOf =
        (endpointOf hardhat_config_js.exports N).bind urlOf ∧
      (endpointOf deploy_js.exports N).bind accountsOf =
        (endpointOf hardhat_config_js.exports N).bind accountsOf :=
  ⟨rfl, rfl, rfl, fun _ => ⟨rfl, rfl⟩⟩

/-- C2: the record exported by `hardhat.config.js` has exactly the two fields
`solidity` and `networks`; `solidity` is the string "0.8.25"; `networks` has
exactly the one key "rinkeby", whose value has exactly the fields `url`, the
string "https://rinkeby.infura.io/v3/YOUR_INFURA_PROJECT_ID", and `accounts`,
the one-element sequence of "YOUR_PRIVATE_KEY". -/
theorem hardhat_exports_shape :
    hardhat_config_js.exports.keys = ["solidity", "networks"] ∧
    hardhat_config_js.exports.get? "solidity" = some (.str "0.8.25") ∧
    (hardhat_config_js.exports.get? "networks").map JsValue.keys = some ["rinkeby"] ∧
    ∃ ep : JsValue,
      (hardhat_config_js.exports.get? "networks").bind (fun n => n.get? "rinkeby") = some ep ∧
      ep.keys = ["url", "accounts"] ∧
      ep.get? "url" = some (.str "https://rinkeby.infura.io/v3/YOUR_INFURA_PROJECT_ID") ∧
      ep.get? "accounts" = some (.arr [.str "YOUR_PRIVATE_KEY"]) :=
  ⟨rfl, rfl, rfl, rinkebyEndpoint, rfl, rfl, rfl, rfl⟩

/-- C3, as stated, fails: in both files the only entry of
`networks.rinkeby.accounts` is "YOUR_PRIVATE_KEY", which is not 64 hexadecimal
digits with an optional `0x` in front. -/
theorem accounts_entry_not_secret_key :
    (endpointOf hardhat_config_js.exports "rinkeby").bind accountsOf =
      some ["YOUR_PRIVATE_KEY"] ∧
    (endpointOf deploy_js.exports "rinkeby").bind accountsOf =
      some ["YOUR_PRIVATE_KEY"] ∧
    isSecretKey "YOUR_PRIVATE_KEY" = false :=
  ⟨rfl, rfl, by decide⟩

/-- C3, amended: for every network name in the `networks` mapping of either
file, every entry of `accounts` is the placeholder "YOUR_PRIVATE_KEY", a
16-character stand-in that is not in the secret-key format. -/
theorem accounts_entries_are_placeholder (m : JsModule) (hm : m ∈ sourceModules)
    (N : String) (ep : JsValue) (h : (N, ep) ∈ networkEntries m.exports) :
    ∃ accs : List String, accountsOf ep = some accs ∧
      ∀ a ∈ accs, a = "YOUR_PRIVATE_KEY" ∧ a.length = 16 ∧ isSecretKey a = false := by
  obtain ⟨-, rfl⟩ := mem_networkEntries_source hm h
  refine ⟨["YOUR_PRIVATE_KEY"], rfl, ?_⟩
  intro a ha
  rw [List.mem_singleton] at ha
  subst ha
  exact ⟨rfl, by decide, by decide⟩

/-- The amended C3 at the `rinkeby` entry of `hardhat.config.js`. -/
theorem accounts_entries_are_placeholder_witness :
    ("rinkeby", rinkebyEndpoint) ∈ networkEntries hardhat_config_js.exports ∧
    ∃ accs : List String, accountsOf rinkebyEndpoint = some accs ∧
      ∀ a ∈ accs, a = "YOUR_PRIVATE_KEY" ∧ a.length = 16 ∧ isSecretKey a = false :=
  ⟨rinkeby_mem_hardhat,
    accounts_entries_are_placeholder hardhat_config_js (List.mem_cons_self _ _)
      "rinkeby" rinkebyEndpoint rinkeby_mem_hardhat⟩

/-- C4: for every network name in the `networks` mapping of either file,
`accounts` is a non-empty sequence. -/
theorem accounts_nonempty (m : JsModule) (hm : m ∈ sourceModules)
    (N : String) (ep : JsValue) (h : (N, ep) ∈ networkEntries m.exports) :
    ∃ (a : String) (rest : List String), accountsOf ep = some (a :: rest) := by
  obtain ⟨-, rfl⟩ := mem_networkEntries_source hm h
  exact ⟨"YOUR_PRIVATE_KEY", [], rfl⟩

/-- C4 at the `rinkeby` entry of `scripts/deploy.js`. -/
theorem accounts_nonempty_witness :
    ("rinkeby", rinkebyEndpoint) ∈ networkEntries deploy_js.exports ∧
    ∃ (a : String) (rest : List String), accountsOf rinkebyEndpoint = some (a :: rest) :=
  ⟨rinkeby_mem_deploy,
    accounts_nonempty deploy_js (List.mem_cons_of_mem _ (List.mem_singleton.mpr rfl))
      "rinkeby" rinkebyEndpoint rinkeby_mem_deploy⟩

/-- C5: for every network name in the `networks` mapping of either file, `url`
is a well-formed HTTP(S) URL: it starts with `http://` or `https://`, a
non-empty host of dot-separated non-empty labels follows, and the string has
no whitespace. -/
theorem url_valid_http (m : JsModule) (hm : m ∈ sourceModules)
    (N : String) (ep : JsValue) (h : (N, ep) ∈ networkEntries m.exports) :
    ∃ u : String, urlOf ep = some u ∧ validHttpUrl u = true := by
  obtain ⟨-, rfl⟩ := mem_networkEntries_source hm h
  exact ⟨"https://rinkeby.infura.io/v3/YOUR_INFURA_PROJECT_ID", rfl, by decide⟩

/-- C5 at the `rinkeby` entry of `hardhat.config.js`. -/
theorem url_valid_http_witness :
    ("rinkeby", rinkebyEndpoint) ∈ networkEntries hardhat_config_js.exports ∧
    ∃ u : String, urlOf rinkebyEndpoint = some u ∧ validHttpUrl u = true :=
  ⟨rinkeby_mem_hardhat,
    url_valid_http hardhat_config_js (List.mem_cons_self _ _)
      "rinkeby" rinkebyEndpoint rinkeby_mem_hardhat⟩

/-- C6, as stated, fails: two environments that supply different secrets load
the same credentials from `hardhat.config.js`, and no pair of environments
loads different ones from either file. -/
theorem credentials_ignore_environment :
    envWithSecret "1111" "PRIVATE_KEY" ≠ envWithSecret "2222" "PRIVATE_KEY" ∧
    credentialsOf (load (envWithSecret "1111") hardhat_config_js) =
      credentialsOf (load (envWithSecret "2222") hardhat_config_js) ∧
    (¬ ∃ e₁ e₂ : Env, credentialsOf (load e₁ hardhat_config_js) ≠
      credentialsOf (load e₂ hardhat_config_js)) ∧
    (¬ ∃ e₁ e₂ : Env, credentialsOf (load e₁ deploy_js) ≠
      credentialsOf (load e₂ deploy_js)) := by
  refine ⟨by decide, rfl, ?_, ?_⟩
  · rintro ⟨e₁, e₂, hne⟩
    exact hne rfl
  · rintro ⟨e₁, e₂, hne⟩
    exact hne rfl

/-- C6, amended: the credentials of the exported configuration are literal
inline strings.  Under every environment, loading either file yields for
`rinkeby` the `accounts` sequence of "YOUR_PRIVATE_KEY" and the `url`
"https://rinkeby.infura.io/v3/YOUR_INFURA_PROJECT_ID", whose project identifier
is "YOUR_INFURA_PROJECT_ID". -/
theorem credentials_are_inline_literals (env : Env) :
    credentialsOf (load env hardhat_config_js) =
      [("rinkeby", some "https://rinkeby.infura.io/v3/YOUR_INFURA_PROJECT_ID",
        some ["YOUR_PRIVATE_KEY"])] ∧
    credentialsOf (load env deploy_js) =
      [("rinkeby", some "https://rinkeby.infura.io/v3/YOUR_INFURA_PROJECT_ID",
        some ["YOUR_PRIVATE_KEY"])] ∧
    projectIdOf? "https://rinkeby.infura.io/v3/YOUR_INFURA_PROJECT_ID" =
      some "YOUR_INFURA_PROJECT_ID" :=
  ⟨rfl, rfl, by decide⟩

/-- C7, as stated, fails: both files have `solidity`, a parseable `url` and a
non-empty `accounts` list, so no required field is missing or malformed, yet in
a checkout where the plugins are not installed the load does not return the
record: the first `require` throws module-not-found.  With only
`@nomiclabs/hardhat-waffle` installed, `hardhat.config.js` still fails, at its
second `require`. -/
theorem load_stops_at_unresolved_require :
    requiredFieldsOk hardhat_config_js.exports = true ∧
    loadWith noPackages (fun _ => none) hardhat_config_js =
      .error (.moduleNotFound "@nomiclabs/hardhat-waffle") ∧
    loadWith waffleOnly (fun _ => none) hardhat_config_js =
      .error (.moduleNotFound "@nomiclabs/hardhat-ethers") ∧
    requiredFieldsOk deploy_js.exports = true ∧
    loadWith noPackages (fun _ => none) deploy_js =
      .error (.moduleNotFound "@nomiclabs/hardhat-waffle") :=
  ⟨by decide, rfl, rfl, by decide, rfl⟩

/-- C7, amended: loading either file never fails with `ConfigurationError`;
the source performs no validation, and in both files `solidity` is present,
the `url` is parseable and `accounts` is non-empty.  When every plugin named
by a `require` statement resolves, the load returns the fully populated
record; otherwise it fails with the module-not-found error of a plugin that
does not resolve and hands over no configuration. -/
theorem load_never_configuration_error (pk : Packages) (env : Env) (m : JsModule)
    (hm : m ∈ sourceModules) :
    loadWith pk env m ≠ .error .configurationError ∧
    requiredFieldsOk m.exports = true ∧
    (requiresResolve pk m → loadWith pk env m = .ok configurationRecord) ∧
    (¬ requiresResolve pk m →
      ∃ missing ∈ m.requires, pk missing = false ∧
        loadWith pk env m = .error (.moduleNotFound missing)) := by
  have hexp : m.exports = configurationRecord := exports_source hm
  refine ⟨?_, ?_, ?_, ?_⟩
  · rcases loadWith_cases pk env m with ⟨-, hok⟩ | ⟨missing, -, -, herr⟩
    · rw [hok]
      exact fun h => Except.noConfusion h
    · rw [herr]
      intro h
      exact LoadError.noConfusion (Except.error.inj h)
  · rw [hexp]
    decide
  · intro h
    rw [loadWith_of_resolve pk env m h, hexp]
  · intro hnot
    rcases loadWith_cases pk env m with ⟨hall, -⟩ | hmissing
    · exact absurd hall hnot
    · exact hmissing

/-- The amended C7 at `hardhat.config.js`, run where only
`@nomiclabs/hardhat-waffle` is installed. -/
theorem load_never_configuration_error_witness :
    hardhat_config_js ∈ sourceModules ∧
    ¬ requiresResolve waffleOnly hardhat_config_js ∧
    loadWith waffleOnly (envWithSecret "1111") hardhat_config_js ≠
      .error .configurationError ∧
    requiredFieldsOk hardhat_config_js.exports = true ∧
    ∃ missing ∈ hardhat_config_js.requires, waffleOnly missing = false ∧
      loadWith waffleOnly (envWithSecret "1111") hardhat_config_js =
        .error (.moduleNotFound missing) := by
  have hm : hardhat_config_js ∈ sourceModules := List.mem_cons_self _ _
  have hnot : ¬ requiresResolve waffleOnly hardhat_config_js := by
    intro h
    exact absurd (h "@nomiclabs/hardhat-ethers" (by decide)) (by decide)
  have key := load_never_configuration_error waffleOnly (envWithSecret "1111")
    hardhat_config_js hm
  exact ⟨hm, hnot, key.1, key.2.1, key.2.2.2 hnot⟩

/-- C8: the `solidity` field of either file is a semantic-version string,
exactly three non-empty decimal numerals separated by two dots and nothing
else, and it denotes version 0.8.25. -/
theorem solidity_is_semver :
    (solidityOf hardhat_config_js.exports).bind parseSemver = some (0, 8, 25) ∧
    (solidityOf deploy_js.exports).bind parseSemver = some (0, 8, 25) :=
  ⟨by decide, by decide⟩

/-- C9: loading is deterministic and idempotent.  For `hardhat.config.js`, and
likewise for `scripts/deploy.js`: any two loads whose `require` statements
resolve, under any two environments, both return the configuration record
written in the file; any two loads that return a record return that same
record; and in one installation the outcome does not depend on the
environment. -/
theorem load_deterministic (pk₁ pk₂ : Packages) (e₁ e₂ : Env) (m : JsModule)
    (hm : m ∈ sourceModules) :
    (requiresResolve pk₁ m → requiresResolve pk₂ m →
      loadWith pk₁ e₁ m = .ok configurationRecord ∧
      loadWith pk₂ e₂ m = .ok configurationRecord) ∧
    (∀ r₁ r₂ : JsValue, loadWith pk₁ e₁ m = .ok r₁ → loadWith pk₂ e₂ m = .ok r₂ →
      r₁ = configurationRecord ∧ r₂ = configurationRecord) ∧
    loadWith pk₁ e₁ m = loadWith pk₁ e₂ m := by
  have hexp : m.exports = configurationRecord := exports_source hm
  have hret : ∀ (pk : Packages) (e : Env) (r : JsValue),
      loadWith pk e m = .ok r → r = configurationRecord := by
    intro pk e r hr
    rcases loadWith_cases pk e m with ⟨-, hok⟩ | ⟨missing, -, -, herr⟩
    · rw [hok] at hr
      rw [← Except.ok.inj hr, hexp]
    · rw [herr] at hr
      exact Except.noConfusion hr
  refine ⟨?_, ?_, rfl⟩
  · intro h₁ h₂
    rw [loadWith_of_resolve pk₁ e₁ m h₁, loadWith_of_resolve pk₂ e₂ m h₂, hexp]
    exact ⟨rfl, rfl⟩
  · intro r₁ r₂ hr₁ hr₂
    exact ⟨hret pk₁ e₁ r₁ hr₁, hret pk₂ e₂ r₂ hr₂⟩

/-- C9 at `hardhat.config.js`: two loads with every plugin installed, under
environments that supply different secrets, return the same record. -/
theorem load_deterministic_witness :
    hardhat_config_js ∈ sourceModules ∧
    requiresResolve allPackages hardhat_config_js ∧
    loadWith allPackages (envWithSecret "1111") hardhat_config_js =
      .ok configurationRecord ∧
    loadWith allPackages (envWithSecret "2222") hardhat_config_js =
      .ok configurationRecord :=
  ⟨List.mem_cons_self _ _, requiresResolve_allPackages _,
    (load_deterministic allPackages allPackages (envWithSecret "1111")
      (envWithSecret "2222") hardhat_config_js (List.mem_cons_self _ _)).1
      (requiresResolve_allPackages _) (requiresResolve_allPackages _)⟩

/-- C10: for every network name N in the `networks` mapping of either file, the
`url` starts with `https://` and its host, the text up to the next `/`, begins
with N followed by a dot. -/
theorem url_host_begins_with_network_name (m : JsModule) (hm : m ∈ sourceModules)
    (N : String) (ep : JsValue) (h : (N, ep) ∈ networkEntries m.exports) :
    ∃ (u : String) (host : List Char), urlOf ep = some u ∧
      "https://".data.isPrefixOf u.data = true ∧
      hostOf? u = some host ∧
      (N.data ++ ['.']).isPrefixOf host = true := by
  obtain ⟨rfl, rfl⟩ := mem_networkEntries_source hm h
  exact ⟨"https://rinkeby.infura.io/v3/YOUR_INFURA_PROJECT_ID", "rinkeby.infura.io".data,
    rfl, by decide, by decide, by decide⟩

/-- C10 at the `rinkeby` entry of `hardhat.config.js`. -/
theorem url_host_begins_with_network_name_witness :
    ("rinkeby", rinkebyEndpoint) ∈ networkEntries hardhat_config_js.exports ∧
    ∃ (u : String) (host : List Char), urlOf rinkebyEndpoint = some u ∧
      "https://".data.isPrefixOf u.data = true ∧
      hostOf? u = some host ∧
      ("rinkeby".data ++ ['.']).isPrefixOf host = true :=
  ⟨rinkeby_mem_hardhat,
    url_host_begins_with_network_name hardhat_config_js (List.mem_cons_self _ _)
      "rinkeby" rinkebyEndpoint rinkeby_mem_hardhat⟩

end DynamicPriceNftMint
